import Mathlib

/-!
# Checkpointed Mersenne-Twister streams and the Monte-Carlo sphere estimator

Shallow embedding of `src/main.cpp`.

* The CLHEP engine is an external library: it is a parameter of every
  definition (`MTwistEngine σ`, one `flat` step on an abstract state `σ`).
* A `double` is modelled by the rational it denotes; every arithmetic
  operation of the source is the exact operation followed by the rounding
  `DoubleArith.rnd`, a parameter constrained only to be monotone and exact on
  the integers of magnitude at most `2^53`.
* The directory `./status` is a map from file names to stored engine states.
-/

namespace TP5

/-! ## Engine, files and double arithmetic -/

/-- The external generator `CLHEP::MTwistEngine`: `flat` returns one value
and the state that follows. -/
structure MTwistEngine (σ : Type) where
  flat : σ → ℚ × σ

/-- Rounding to `double`: monotone, and exact on integers up to `2^53`. -/
structure DoubleArith where
  rnd : ℚ → ℚ
  mono : ∀ a b : ℚ, a ≤ b → rnd a ≤ rnd b
  exact_int : ∀ k : ℤ, -(2 ^ 53) ≤ k → k ≤ 2 ^ 53 → rnd (k : ℚ) = (k : ℚ)

/-- Arithmetic without rounding error. -/
def exactArith : DoubleArith where
  rnd := fun q => q
  mono := fun _ _ h => h
  exact_int := fun _ _ _ => rfl

/-- The `double` product `a * b`. -/
def fmul (R : DoubleArith) (a b : ℚ) : ℚ := R.rnd (a * b)

/-- The `double` sum `a + b`. -/
def fadd (R : DoubleArith) (a b : ℚ) : ℚ := R.rnd (a + b)

/-- The `double` difference `a - b`. -/
def fsub (R : DoubleArith) (a b : ℚ) : ℚ := R.rnd (a - b)

/-- The `double` quotient `a / b` (for `b ≠ 0`). -/
def fdiv (R : DoubleArith) (a b : ℚ) : ℚ := R.rnd (a / b)

/-- Contents of the directory `./status`: the engine state stored under each
file name, `none` where no readable checkpoint exists. -/
abbrev Files (σ : Type) := String → Option σ

/-- Effect of `s->saveStatus(name)` on the files; the method is `const`, the
engine state is read only. -/
def saveStatus {σ : Type} (fs : Files σ) (name : String) (s : σ) : Files σ :=
  fun n => if n = name then some s else fs n

/-- Effect of `s->restoreStatus(name)` on the engine state. The method returns
`void`; when the file cannot be read it only writes a message on the error
stream and the state stays as it was. -/
def restoreStatus {σ : Type} (fs : Files σ) (name : String) (s : σ) : σ :=
  match fs name with
  | some t => t
  | none => s

/-- State reached after `n` calls of `flat`. -/
def advance {σ : Type} (E : MTwistEngine σ) : Nat → σ → σ
  | 0, s => s
  | n + 1, s => advance E n (E.flat s).2

/-- Value `d(n)` of draw number `n` (from zero) of the sequence starting at `s`. -/
def draw {σ : Type} (E : MTwistEngine σ) (s : σ) (n : Nat) : ℚ :=
  (E.flat (advance E n s)).1

/-! ## `calculerVolumeSphere` -/

/-- The expression `s->flat() * 2 - 1`, applied to the value drawn. -/
def coord (R : DoubleArith) (f : ℚ) : ℚ := fsub R (fmul R f 2) 1

/-- The expression `x * x + y * y + z * z`. -/
def sumSq (R : DoubleArith) (x y z : ℚ) : ℚ :=
  fadd R (fadd R (fmul R x x) (fmul R y y)) (fmul R z z)

/-- The test `x * x + y * y + z * z <= 1` on the point built from three draws. -/
def inSphere (R : DoubleArith) (f1 f2 f3 : ℚ) : Bool :=
  decide (sumSq R (coord R f1) (coord R f2) (coord R f3) ≤ 1)

/-- The loop `for (long i = 0; i < nbPoints; i++)` of `calculerVolumeSphere`,
by the number of iterations left; `pts` is the `unsigned long` counter. -/
def sphereLoop {σ : Type} (E : MTwistEngine σ) (R : DoubleArith) : Nat → σ → Nat → σ × Nat
  | 0, s, pts => (s, pts)
  | k + 1, s, pts =>
    let dx := E.flat s
    let dy := E.flat dx.2
    let dz := E.flat dy.2
    sphereLoop E R k dz.2
      (if inSphere R dx.1 dy.1 dz.1 then (pts + 1) % 2 ^ 64 else pts)

/-- The function `calculerVolumeSphere(s, nbPoints)`: returned value and engine state left. -/
def calculerVolumeSphere {σ : Type} (E : MTwistEngine σ) (R : DoubleArith) (s : σ)
    (nbPoints : Int) : ℚ × σ :=
  let r := sphereLoop E R nbPoints.toNat s 0
  (fdiv R (fmul R 8 (R.rnd (r.2 : ℚ))) (R.rnd (nbPoints : ℚ)), r.1)

/-- Whether iteration `i` counts a hit: the point built from draws `3i`, `3i+1`, `3i+2`. -/
def hitAt {σ : Type} (E : MTwistEngine σ) (R : DoubleArith) (s : σ) (i : Nat) : Bool :=
  inSphere R (draw E s (3 * i)) (draw E s (3 * i + 1)) (draw E s (3 * i + 2))

/-- Number of iterations `i < n` whose point lies in the sphere. -/
def hits {σ : Type} (E : MTwistEngine σ) (R : DoubleArith) (s : σ) (n : Nat) : Nat :=
  (List.range n).countP (hitAt E R s)

/-! ## `SaveEtRestoreStatus` -/

/-- The constant `NB_STATUS`. -/
abbrev NB_STATUS : Nat := 10

/-- The constant `NB_TIRAGES`. -/
abbrev NB_TIRAGES : Nat := 10

/-- The file name `"./status/status_sm_" + std::to_string(status)`. -/
def statusName (status : Nat) : String := "./status/status_sm_" ++ toString status

/-- The local array `double saveTirages[NB_STATUS][NB_TIRAGES]`. -/
abbrev Tirages := Nat → Nat → ℚ

/-- The assignment `saveTirages[status][tirage] = v`. -/
def setTirage (a : Tirages) (status tirage : Nat) (v : ℚ) : Tirages :=
  fun i j => if i = status ∧ j = tirage then v else a i j

/-- Inner loop of the save phase: `saveTirages[status][tirage] = s->flat()` for the
`n` indices from `tirage` on. -/
def recordLoop {σ : Type} (E : MTwistEngine σ) (status : Nat) :
    Nat → Nat → Tirages → σ → Tirages × σ
  | 0, _, a, s => (a, s)
  | n + 1, tirage, a, s =>
    let d := E.flat s
    recordLoop E status n (tirage + 1) (setTirage a status tirage d.1) d.2

/-- Outer loop of the save phase, for the `n` checkpoints from `status` on: save the
state under `statusName status`, then record `NB_TIRAGES` draws. -/
def savePhase {σ : Type} (E : MTwistEngine σ) :
    Nat → Nat → Files σ → Tirages → σ → Files σ × Tirages × σ
  | 0, _, fs, a, s => (fs, a, s)
  | n + 1, status, fs, a, s =>
    let fs1 := saveStatus fs (statusName status) s
    let r := recordLoop E status NB_TIRAGES 0 a s
    savePhase E n (status + 1) fs1 r.1 r.2

/-- Inner loop of the check phase: draw and `assert(flat == saveTirages[status][tirage])`;
`none` is the abort of a failed assertion. -/
def verifLoop {σ : Type} (E : MTwistEngine σ) (a : Tirages) (status : Nat) :
    Nat → Nat → σ → Option σ
  | 0, _, s => some s
  | n + 1, tirage, s =>
    let d := E.flat s
    if d.1 = a status tirage then verifLoop E a status n (tirage + 1) d.2 else none

/-- Outer loop of the check phase, for the `n` checkpoints from `status` on: restore
the state from `statusName status`, then compare `NB_TIRAGES` draws. -/
def restorePhase {σ : Type} (E : MTwistEngine σ) (fs : Files σ) (a : Tirages) :
    Nat → Nat → σ → Option σ
  | 0, _, s => some s
  | n + 1, status, s =>
    match verifLoop E a status NB_TIRAGES 0 (restoreStatus fs (statusName status) s) with
    | none => none
    | some s1 => restorePhase E fs a n (status + 1) s1

/-- The function `SaveEtRestoreStatus(s)`: `some` of the final engine state when every
assertion holds, `none` when one fails. `a0` is the content the array starts with. -/
def SaveEtRestoreStatus {σ : Type} (E : MTwistEngine σ) (fs : Files σ) (a0 : Tirages)
    (s : σ) : Option σ :=
  let r := savePhase E NB_STATUS 0 fs a0 s
  restorePhase E r.1 r.2.1 NB_STATUS 0 r.2.2

/-! ## `saveStatusGrandNmbre` -/

/-- The literal `2'000'000'000` bounding the inner loop of `saveStatusGrandNmbre`. -/
def skipDistance : Nat := 2000000000

/-- The file name `"./status/status_sm_2-" + std::to_string(save)`. -/
def ladderName (save : Nat) : String := "./status/status_sm_2-" ++ toString save

/-- The loop of `saveStatusGrandNmbre`, for the `n` checkpoints from `save` on: save the
state under `ladderName save`, then call `flat` `S` times, `S` being the bound of the
inner loop (the literal `2'000'000'000`, passed by `saveStatusGrandNmbre`). -/
def ladderLoop {σ : Type} (E : MTwistEngine σ) (S : Nat) :
    Nat → Nat → Files σ → σ → Files σ × σ
  | 0, _, fs, s => (fs, s)
  | n + 1, save, fs, s =>
    ladderLoop E S n (save + 1) (saveStatus fs (ladderName save) s) (advance E S s)

/-- The function `saveStatusGrandNmbre(s)`: files and engine state left. -/
def saveStatusGrandNmbre {σ : Type} (E : MTwistEngine σ) (fs : Files σ) (s : σ) :
    Files σ × σ :=
  ladderLoop E skipDistance NB_STATUS 0 fs s

/-- Position, in the sequence that starts at the state the ladder was built from, of
draw number `a` after restoring ladder checkpoint `i`. -/
def ladderPosition (i a : Nat) : Nat := i * skipDistance + a

/-! ## The estimation modes -/

/-- Conversion of a `long` argument to the `int` parameter of `calculerVolumeSphere`
(the value modulo `2^32`, taken in `[-2^31, 2^31)`). -/
def narrowToInt (n : Int) : Int := (n + 2 ^ 31) % 2 ^ 32 - 2 ^ 31

/-- The loop of `calculerVolumeSphereSequentiel`, by the number of replications left:
`sommeVolumes += calculerVolumeSphere(s, nbPoints)`. -/
def replicationLoop {σ : Type} (E : MTwistEngine σ) (R : DoubleArith) (nbPoints : Int) :
    Nat → σ → ℚ → ℚ × σ
  | 0, s, sommeVolumes => (sommeVolumes, s)
  | k + 1, s, sommeVolumes =>
    let r := calculerVolumeSphere E R s (narrowToInt nbPoints)
    replicationLoop E R nbPoints k r.2 (fadd R sommeVolumes r.1)

/-- The function `calculerVolumeSphereSequentiel(s, nbPoints)`: the printed value
`sommeVolumes / 10` and the engine state left. -/
def calculerVolumeSphereSequentiel {σ : Type} (E : MTwistEngine σ) (R : DoubleArith)
    (s : σ) (nbPoints : Int) : ℚ × σ :=
  let r := replicationLoop E R nbPoints 10 s 0
  (fdiv R r.1 10, r.2)

/-- Estimate of replication `r` of the sequential mode, as a count over the draws
`3 * n * r` to `3 * n * (r + 1) - 1` of the sequence starting at `s`. -/
def replicationEstimate {σ : Type} (E : MTwistEngine σ) (R : DoubleArith) (s : σ)
    (n r : Nat) : ℚ :=
  R.rnd (8 * (hits E R (advance E (3 * n * r) s) n : ℚ) / (n : ℚ))

/-- Mean of the ten replication estimates, summed in replication order. -/
def meanOfReplications {σ : Type} (E : MTwistEngine σ) (R : DoubleArith) (s : σ)
    (n : Nat) : ℚ :=
  fdiv R ((List.range 10).foldl (fun acc r => fadd R acc (replicationEstimate E R s n r)) 0) 10

/-- The function `calculerVolumeSphereParallel(s, nbPoints, fileName)`: the estimate
written on standard output (`none` would be a run that ends without printing one)
and the engine state left. -/
def calculerVolumeSphereParallel {σ : Type} (E : MTwistEngine σ) (R : DoubleArith)
    (fs : Files σ) (s : σ) (nbPoints : Int) (fileName : String) : Option ℚ × σ :=
  let s1 := restoreStatus fs fileName s
  let r := calculerVolumeSphere E R s1 (narrowToInt nbPoints)
  (some r.1, r.2)

/-- The budget `1'000'000'000` that `main` passes to the estimation modes. -/
def mainNbPoints : Int := 1000000000

/-- Case 5 of the `switch` in `main`: `calculerVolumeSphereParallel(s, 1'000'000'000, argv[2])`. -/
def mainCase5 {σ : Type} (E : MTwistEngine σ) (R : DoubleArith) (fs : Files σ) (s : σ)
    (fileName : String) : Option ℚ × σ :=
  calculerVolumeSphereParallel E R fs s mainNbPoints fileName

/-- The loop of `calculerVolumeSphereParallelV2` run in index order, by the number of
iterations left; `acc` is the `double pi`. -/
def loopV2 {σ : Type} (E : MTwistEngine σ) (R : DoubleArith) : Nat → σ → ℚ → σ × ℚ
  | 0, s, acc => (s, acc)
  | k + 1, s, acc =>
    let dx := E.flat s
    let dy := E.flat dx.2
    let dz := E.flat dy.2
    loopV2 E R k dz.2 (if inSphere R dx.1 dy.1 dz.1 then fadd R acc 1 else acc)

/-- The function `calculerVolumeSphereParallelV2(s, nbPoints, fileName)` with its loop
run in index order: printed value and engine state left. `pi0` is the value the
local `double pi`, declared without initialiser, holds when the loop starts. -/
def calculerVolumeSphereParallelV2 {σ : Type} (E : MTwistEngine σ) (R : DoubleArith)
    (fs : Files σ) (s : σ) (pi0 : ℚ) (nbPoints : Int) (fileName : String) : ℚ × σ :=
  let s1 := restoreStatus fs fileName s
  let r := loopV2 E R nbPoints.toNat s1 pi0
  (fdiv R (fmul R 8 r.2) (R.rnd (nbPoints : ℚ)), r.1)

/-! ## A concrete engine -/

/-- An engine whose state counts the draws made and whose every draw is `1/2`. -/
def halfEngine : MTwistEngine Nat where
  flat := fun s => (1 / 2, s + 1)

/-- A directory without any checkpoint. -/
def noFiles : Files Nat := fun _ => none

/-! ## Lemmas on the draw sequence -/

theorem advance_add {σ : Type} (E : MTwistEngine σ) (m n : Nat) (s : σ) :
    advance E (m + n) s = advance E n (advance E m s) := by
  induction m generalizing s with
  | zero => simp [advance]
  | succ m ih =>
    have e : m + 1 + n = (m + n) + 1 := by omega
    rw [e]
    simp only [advance]
    exact ih _

theorem advance_succ {σ : Type} (E : MTwistEngine σ) (n : Nat) (s : σ) :
    advance E (n + 1) s = (E.flat (advance E n s)).2 := by
  rw [advance_add]
  rfl

theorem draw_advance {σ : Type} (E : MTwistEngine σ) (m n : Nat) (s : σ) :
    draw E (advance E m s) n = draw E s (m + n) := by
  unfold draw
  rw [advance_add]

theorem hitAt_advance {σ : Type} (E : MTwistEngine σ) (R : DoubleArith) (s : σ) (i : Nat) :
    hitAt E R (advance E 3 s) i = hitAt E R s (i + 1) := by
  unfold hitAt
  rw [draw_advance, draw_advance, draw_advance]
  have e1 : 3 + 3 * i = 3 * (i + 1) := by ring
  have e2 : 3 + (3 * i + 1) = 3 * (i + 1) + 1 := by ring
  have e3 : 3 + (3 * i + 2) = 3 * (i + 1) + 2 := by ring
  rw [e1, e2, e3]

theorem hits_succ {σ : Type} (E : MTwistEngine σ) (R : DoubleArith) (s : σ) (n : Nat) :
    hits E R s (n + 1)
      = (if hitAt E R s 0 then 1 else 0) + hits E R (advance E 3 s) n := by
  unfold hits
  rw [List.range_succ_eq_map, List.countP_cons, List.countP_map]
  have e : (hitAt E R s ∘ Nat.succ) = hitAt E R (advance E 3 s) := by
    funext i
    simp [Function.comp, hitAt_advance]
  rw [e]
  omega

theorem hits_le {σ : Type} (E : MTwistEngine σ) (R : DoubleArith) (s : σ) (n : Nat) :
    hits E R s n ≤ n := by
  unfold hits
  calc (List.range n).countP (hitAt E R s) ≤ (List.range n).length := List.countP_le_length _
    _ = n := List.length_range n

theorem sphereLoop_spec {σ : Type} (E : MTwistEngine σ) (R : DoubleArith) (k : Nat) :
    ∀ (s : σ) (pts : Nat), pts + k < 2 ^ 64 →
      sphereLoop E R k s pts = (advance E (3 * k) s, pts + hits E R s k) := by
  induction k with
  | zero => intro s pts _; simp [sphereLoop, advance, hits]
  | succ k ih =>
    intro s pts hb
    have h3 : 3 * (k + 1) = 3 + 3 * k := by ring
    have hadv : advance E 3 s = (E.flat (E.flat (E.flat s).2).2).2 := rfl
    have hhit : hitAt E R s 0
        = inSphere R (E.flat s).1 (E.flat (E.flat s).2).1 (E.flat (E.flat (E.flat s).2).2).1 := rfl
    rw [h3, advance_add, hits_succ, hhit, hadv]
    simp only [sphereLoop]
    by_cases hin : inSphere R (E.flat s).1 (E.flat (E.flat s).2).1
        (E.flat (E.flat (E.flat s).2).2).1 = true
    · simp only [hin, if_true]
      have hm : (pts + 1) % 2 ^ 64 = pts + 1 := Nat.mod_eq_of_lt (by omega)
      rw [hm, ih _ _ (by omega)]
      congr 1
      omega
    · rw [Bool.not_eq_true] at hin
      simp only [hin, Bool.false_eq_true, if_false]
      rw [ih _ _ (by omega)]
      simp

/-! ## Lemmas on rounding -/

theorem rnd_nat (R : DoubleArith) (k : Nat) (hk : k ≤ 2 ^ 53) : R.rnd (k : ℚ) = (k : ℚ) := by
  have h := R.exact_int (k : ℤ) (by omega) (by exact_mod_cast hk)
  simpa using h

theorem rnd_zero (R : DoubleArith) : R.rnd 0 = 0 := by
  simpa using rnd_nat R 0 (by norm_num)

theorem rnd_bounds (R : DoubleArith) (q : ℚ) (b : Nat) (hb : b ≤ 2 ^ 53) (h0 : 0 ≤ q)
    (h1 : q ≤ (b : ℚ)) : 0 ≤ R.rnd q ∧ R.rnd q ≤ (b : ℚ) := by
  constructor
  · have h := R.mono 0 q h0
    rwa [rnd_zero] at h
  · have h := R.mono q b h1
    rwa [rnd_nat R b hb] at h

/-! ## Lemmas on `calculerVolumeSphere` -/

theorem calculerVolumeSphere_eq {σ : Type} (E : MTwistEngine σ) (R : DoubleArith) (s : σ)
    (n : Nat) (hn : n ≤ 2 ^ 31 - 1) :
    calculerVolumeSphere E R s (n : Int)
      = (R.rnd (8 * (hits E R s n : ℚ) / (n : ℚ)), advance E (3 * n) s) := by
  have hh : hits E R s n ≤ n := hits_le E R s n
  have hn2 : n ≤ 2147483647 := by simpa using hn
  unfold calculerVolumeSphere
  simp only [Int.toNat_ofNat]
  rw [sphereLoop_spec E R n s 0 (by omega)]
  simp only [Nat.zero_add, fdiv, fmul, Int.cast_natCast]
  rw [rnd_nat R (hits E R s n) (by omega), rnd_nat R n (by omega)]
  have e : (8 : ℚ) * (hits E R s n : ℚ) = ((8 * hits E R s n : Nat) : ℚ) := by push_cast; ring
  rw [e, rnd_nat R (8 * hits E R s n) (by omega)]

theorem estimate_bounds {σ : Type} (E : MTwistEngine σ) (R : DoubleArith) (s : σ)
    (n : Nat) (hn : 1 ≤ n) :
    0 ≤ R.rnd (8 * (hits E R s n : ℚ) / (n : ℚ))
      ∧ R.rnd (8 * (hits E R s n : ℚ) / (n : ℚ)) ≤ 8 := by
  have hh : (hits E R s n : ℚ) ≤ (n : ℚ) := by exact_mod_cast hits_le E R s n
  have hpos : (0 : ℚ) < (n : ℚ) := by exact_mod_cast hn
  have h0 : (0 : ℚ) ≤ 8 * (hits E R s n : ℚ) / (n : ℚ) := by positivity
  have h8 : 8 * (hits E R s n : ℚ) / (n : ℚ) ≤ ((8 : Nat) : ℚ) := by
    rw [div_le_iff₀ hpos]
    push_cast
    linarith
  have h := rnd_bounds R _ 8 (by norm_num) h0 h8
  simpa using h

/-! ## Claims on `calculerVolumeSphere` -/

/-- C2: for every engine state and every `int` budget `nbPoints ≥ 1`, the counter of
`calculerVolumeSphere` ends between `0` and `nbPoints`, and the value returned lies
in `[0, 8]`. -/
theorem calculerVolumeSphere_in_bounds {σ : Type} (E : MTwistEngine σ) (R : DoubleArith)
    (s : σ) (nbPoints : Int) (h1 : 1 ≤ nbPoints) (h2 : nbPoints ≤ 2 ^ 31 - 1) :
    (sphereLoop E R nbPoints.toNat s 0).2 ≤ nbPoints.toNat
      ∧ 0 ≤ (calculerVolumeSphere E R s nbPoints).1
      ∧ (calculerVolumeSphere E R s nbPoints).1 ≤ 8 := by
  obtain ⟨n, rfl⟩ := Int.eq_ofNat_of_zero_le (by omega : 0 ≤ nbPoints)
  have hn : n ≤ 2 ^ 31 - 1 := by omega
  have h1n : 1 ≤ n := by omega
  refine ⟨?_, ?_, ?_⟩
  · simp only [Int.toNat_ofNat]
    rw [sphereLoop_spec E R n s 0 (by omega)]
    simpa using hits_le E R s n
  · rw [calculerVolumeSphere_eq E R s n hn]
    exact (estimate_bounds E R s n h1n).1
  · rw [calculerVolumeSphere_eq E R s n hn]
    exact (estimate_bounds E R s n h1n).2

/-- Witness of C2 on the engine whose draws are all `1/2`, with a budget of 5 points. -/
theorem calculerVolumeSphere_in_bounds_witness :
    (sphereLoop halfEngine exactArith (5 : Int).toNat 0 0).2 ≤ (5 : Int).toNat
      ∧ 0 ≤ (calculerVolumeSphere halfEngine exactArith 0 5).1
      ∧ (calculerVolumeSphere halfEngine exactArith 0 5).1 ≤ 8 :=
  calculerVolumeSphere_in_bounds halfEngine exactArith 0 5 (by decide) (by decide)

/-- C3: for every engine state and every `int` budget `nbPoints ≥ 1`,
`calculerVolumeSphere` returns the `double` value of `8 * hits / nbPoints`, where
`hits` counts the iterations `i < nbPoints` that are hits; iteration `i` is a hit
exactly when the point `x = d(3i) * 2 - 1`, `y = d(3i+1) * 2 - 1`, `z = d(3i+2) * 2 - 1`
(each operation rounded to `double`) has `(x*x + y*y) + z*z <= 1`, `d(n)` being draw
`n` from the entry state; in exact arithmetic this is
`(2*d(3i) - 1)² + (2*d(3i+1) - 1)² + (2*d(3i+2) - 1)² <= 1`; a sum of squares equal
to 1 is a hit; and the engine is left in the state reached after `3 * nbPoints` draws. -/
theorem calculerVolumeSphere_spec {σ : Type} (E : MTwistEngine σ) (R : DoubleArith)
    (s : σ) (nbPoints : Int) (h1 : 1 ≤ nbPoints) (h2 : nbPoints ≤ 2 ^ 31 - 1) :
    (calculerVolumeSphere E R s nbPoints).1
        = R.rnd (8 * (hits E R s nbPoints.toNat : ℚ) / (nbPoints : ℚ))
      ∧ (calculerVolumeSphere E R s nbPoints).2 = advance E (3 * nbPoints.toNat) s
      ∧ (∀ i : Nat, hitAt E R s i
            = decide (R.rnd (R.rnd
                (R.rnd (R.rnd (R.rnd (draw E s (3 * i) * 2) - 1)
                    * R.rnd (R.rnd (draw E s (3 * i) * 2) - 1))
                  + R.rnd (R.rnd (R.rnd (draw E s (3 * i + 1) * 2) - 1)
                    * R.rnd (R.rnd (draw E s (3 * i + 1) * 2) - 1)))
                + R.rnd (R.rnd (R.rnd (draw E s (3 * i + 2) * 2) - 1)
                    * R.rnd (R.rnd (draw E s (3 * i + 2) * 2) - 1))) ≤ 1))
      ∧ (∀ i : Nat, hitAt E exactArith s i
            = decide ((2 * draw E s (3 * i) - 1) * (2 * draw E s (3 * i) - 1)
                + (2 * draw E s (3 * i + 1) - 1) * (2 * draw E s (3 * i + 1) - 1)
                + (2 * draw E s (3 * i + 2) - 1) * (2 * draw E s (3 * i + 2) - 1) ≤ 1))
      ∧ (∀ f1 f2 f3 : ℚ,
            R.rnd (R.rnd
                (R.rnd (R.rnd (R.rnd (f1 * 2) - 1) * R.rnd (R.rnd (f1 * 2) - 1))
                  + R.rnd (R.rnd (R.rnd (f2 * 2) - 1) * R.rnd (R.rnd (f2 * 2) - 1)))
                + R.rnd (R.rnd (R.rnd (f3 * 2) - 1) * R.rnd (R.rnd (f3 * 2) - 1))) = 1
            → inSphere R f1 f2 f3 = true) := by
  obtain ⟨n, rfl⟩ := Int.eq_ofNat_of_zero_le (by omega : 0 ≤ nbPoints)
  have hn : n ≤ 2 ^ 31 - 1 := by omega
  rw [calculerVolumeSphere_eq E R s n hn]
  refine ⟨by simp, by simp, fun i => rfl, fun i => ?_, ?_⟩
  · have e : ∀ d : ℚ, 2 * d - 1 = d * 2 - 1 := fun d => by ring
    rw [e, e, e]
    rfl
  · intro f1 f2 f3 h
    have hs : sumSq R (coord R f1) (coord R f2) (coord R f3) = 1 := h
    simp [inSphere, hs]

/-- Witness of C3 on the engine whose draws are all `1/2`, with a budget of 5 points. -/
theorem calculerVolumeSphere_spec_witness :
    (calculerVolumeSphere halfEngine exactArith 0 5).1
        = exactArith.rnd (8 * (hits halfEngine exactArith 0 (5 : Int).toNat : ℚ) / ((5 : Int) : ℚ))
      ∧ (calculerVolumeSphere halfEngine exactArith 0 5).2
        = advance halfEngine (3 * (5 : Int).toNat) 0 :=
  ⟨(calculerVolumeSphere_spec halfEngine exactArith 0 5 (by decide) (by decide)).1,
    (calculerVolumeSphere_spec halfEngine exactArith 0 5 (by decide) (by decide)).2.1⟩

/-! ## Lemmas on `SaveEtRestoreStatus` -/

theorem statusName_inj : ∀ i < 10, ∀ j < 10, statusName i = statusName j → i = j := by
  decide

theorem draw_flat {σ : Type} (E : MTwistEngine σ) (s : σ) (m : Nat) :
    draw E (E.flat s).2 m = draw E s (1 + m) :=
  draw_advance E 1 m s

theorem recordLoop_state {σ : Type} (E : MTwistEngine σ) (st n : Nat) :
    ∀ (t : Nat) (a : Tirages) (s : σ), (recordLoop E st n t a s).2 = advance E n s := by
  induction n with
  | zero => intro t a s; rfl
  | succ n ih => intro t a s; simp only [recordLoop, advance]; exact ih _ _ _

theorem recordLoop_get {σ : Type} (E : MTwistEngine σ) (st n : Nat) :
    ∀ (t : Nat) (a : Tirages) (s : σ) (i j : Nat),
      (recordLoop E st n t a s).1 i j
        = if i = st ∧ t ≤ j ∧ j < t + n then draw E s (j - t) else a i j := by
  induction n with
  | zero =>
    intro t a s i j
    have h : ¬ (i = st ∧ t ≤ j ∧ j < t + 0) := by omega
    simp only [recordLoop, h, if_false]
  | succ n ih =>
    intro t a s i j
    simp only [recordLoop]
    rw [ih]
    by_cases h1 : i = st ∧ t + 1 ≤ j ∧ j < t + 1 + n
    · have h2 : i = st ∧ t ≤ j ∧ j < t + (n + 1) := by omega
      rw [if_pos h1, if_pos h2, draw_flat]
      congr 1
      omega
    · rw [if_neg h1]
      by_cases h3 : i = st ∧ j = t
      · have h2 : i = st ∧ t ≤ j ∧ j < t + (n + 1) := by omega
        rw [if_pos h2]
        simp only [setTirage, h3, and_self, if_true, Nat.sub_self]
        rfl
      · have h2 : ¬ (i = st ∧ t ≤ j ∧ j < t + (n + 1)) := by omega
        rw [if_neg h2]
        simp only [setTirage, h3, if_false]

theorem savePhase_state {σ : Type} (E : MTwistEngine σ) (n : Nat) :
    ∀ (st : Nat) (fs : Files σ) (a : Tirages) (s : σ),
      (savePhase E n st fs a s).2.2 = advance E (NB_TIRAGES * n) s := by
  induction n with
  | zero => intro st fs a s; rfl
  | succ n ih =>
    intro st fs a s
    simp only [savePhase]
    rw [ih, recordLoop_state]
    have e : NB_TIRAGES * (n + 1) = NB_TIRAGES + NB_TIRAGES * n := by ring
    rw [e, advance_add]

theorem savePhase_files_frame {σ : Type} (E : MTwistEngine σ) (n : Nat) :
    ∀ (st : Nat) (fs : Files σ) (a : Tirages) (s : σ) (name : String),
      (∀ k, st ≤ k → k < st + n → name ≠ statusName k) →
      (savePhase E n st fs a s).1 name = fs name := by
  induction n with
  | zero => intro st fs a s name _; rfl
  | succ n ih =>
    intro st fs a s name h
    simp only [savePhase]
    rw [ih _ _ _ _ name (fun k h1 h2 => h k (by omega) (by omega))]
    have hne : name ≠ statusName st := h st (by omega) (by omega)
    simp [saveStatus, hne]

theorem savePhase_tirages_frame {σ : Type} (E : MTwistEngine σ) (n : Nat) :
    ∀ (st : Nat) (fs : Files σ) (a : Tirages) (s : σ) (i j : Nat), i < st →
      (savePhase E n st fs a s).2.1 i j = a i j := by
  induction n with
  | zero => intro st fs a s i j _; rfl
  | succ n ih =>
    intro st fs a s i j h
    simp only [savePhase]
    rw [ih _ _ _ _ i j (by omega), recordLoop_get]
    have h2 : ¬ (i = st ∧ 0 ≤ j ∧ j < 0 + NB_TIRAGES) := by omega
    rw [if_neg h2]

theorem savePhase_files {σ : Type} (E : MTwistEngine σ) (n : Nat) :
    ∀ (st : Nat) (fs : Files σ) (a : Tirages) (s : σ) (k : Nat),
      st ≤ k → k < st + n → st + n ≤ 10 →
      (savePhase E n st fs a s).1 (statusName k)
        = some (advance E (NB_TIRAGES * (k - st)) s) := by
  induction n with
  | zero => intro st fs a s k h1 h2; omega
  | succ n ih =>
    intro st fs a s k h1 h2 h3
    simp only [savePhase]
    by_cases hk : k = st
    · subst hk
      rw [savePhase_files_frame]
      · simp [saveStatus, advance]
      · intro k2 h4 h5 heq
        have := statusName_inj k (by omega) k2 (by omega) heq
        omega
    · rw [ih _ _ _ _ k (by omega) (by omega) (by omega), recordLoop_state, ← advance_add]
      congr 2
      have e : k - st = (k - (st + 1)) + 1 := by omega
      rw [e]
      ring

theorem savePhase_tirages {σ : Type} (E : MTwistEngine σ) (n : Nat) :
    ∀ (st : Nat) (fs : Files σ) (a : Tirages) (s : σ) (k t : Nat),
      st ≤ k → k < st + n → t < NB_TIRAGES →
      (savePhase E n st fs a s).2.1 k t = draw E s (NB_TIRAGES * (k - st) + t) := by
  induction n with
  | zero => intro st fs a s k t h1 h2; omega
  | succ n ih =>
    intro st fs a s k t h1 h2 h3
    simp only [savePhase]
    by_cases hk : k = st
    · subst hk
      rw [savePhase_tirages_frame _ _ _ _ _ _ _ _ (by omega), recordLoop_get]
      have h4 : k = k ∧ 0 ≤ t ∧ t < 0 + NB_TIRAGES := by omega
      rw [if_pos h4]
      simp
    · rw [ih _ _ _ _ k t (by omega) (by omega) h3, recordLoop_state, draw_advance]
      congr 1
      have e : k - st = (k - (st + 1)) + 1 := by omega
      rw [e]
      ring

theorem verifLoop_ok {σ : Type} (E : MTwistEngine σ) (a : Tirages) (st n : Nat) :
    ∀ (t : Nat) (s : σ), (∀ j, t ≤ j → j < t + n → a st j = draw E s (j - t)) →
      verifLoop E a st n t s = some (advance E n s) := by
  induction n with
  | zero => intro t s _; rfl
  | succ n ih =>
    intro t s h
    have h0 : (E.flat s).1 = a st t := by
      have := h t (by omega) (by omega)
      rw [this, Nat.sub_self]
      rfl
    simp only [verifLoop, h0, if_true, advance]
    apply ih
    intro j h1 h2
    rw [h j (by omega) (by omega), draw_flat]
    congr 1
    omega

theorem restorePhase_ok {σ : Type} (E : MTwistEngine σ) (fs : Files σ) (a : Tirages)
    (c : Nat → σ) (n : Nat) :
    ∀ (st : Nat) (s : σ),
      (∀ k, st ≤ k → k < st + n →
        fs (statusName k) = some (c k) ∧ ∀ t, t < NB_TIRAGES → a k t = draw E (c k) t) →
      restorePhase E fs a n st s
        = some (match n with
                | 0 => s
                | m + 1 => advance E NB_TIRAGES (c (st + m))) := by
  induction n with
  | zero => intro st s _; rfl
  | succ n ih =>
    intro st s h
    obtain ⟨hf, ha⟩ := h st (by omega) (by omega)
    have hr : restoreStatus fs (statusName st) s = c st := by simp [restoreStatus, hf]
    have hv : verifLoop E a st NB_TIRAGES 0 (c st) = some (advance E NB_TIRAGES (c st)) := by
      apply verifLoop_ok
      intro j _ h2
      rw [ha j (by omega)]
      rfl
    simp only [restorePhase, hr, hv]
    rw [ih (st + 1) _ (fun k h1 h2 => h k (by omega) (by omega))]
    cases n with
    | zero => rfl
    | succ m =>
      have e : st + 1 + m = st + (m + 1) := by omega
      simp only [e]

/-! ## Claim on `SaveEtRestoreStatus` -/

/-- C1: for every initial engine state, after the save phase of `SaveEtRestoreStatus`
the value recorded at `saveTirages[k][t]` is draw `10 * k + t` of the initial sequence,
restoring checkpoint `k` (from any engine state) and drawing gives at draw `t` exactly
`saveTirages[k][t]`, for every `k` and `t` in `0..9`; and the function runs through all
its assertions, none failing, leaving the engine 100 draws after the initial state. -/
theorem SaveEtRestoreStatus_reproducible {σ : Type} (E : MTwistEngine σ) (fs : Files σ)
    (a0 : Tirages) (s0 : σ) :
    (∀ (k : Fin NB_STATUS) (t : Fin NB_TIRAGES),
        (savePhase E NB_STATUS 0 fs a0 s0).2.1 k t = draw E s0 (NB_TIRAGES * k + t))
      ∧ (∀ (k : Fin NB_STATUS) (t : Fin NB_TIRAGES) (s : σ),
          draw E (restoreStatus (savePhase E NB_STATUS 0 fs a0 s0).1 (statusName k) s) t
            = (savePhase E NB_STATUS 0 fs a0 s0).2.1 k t)
      ∧ SaveEtRestoreStatus E fs a0 s0 = some (advance E 100 s0) := by
  have hfiles : ∀ k, k < NB_STATUS → (savePhase E NB_STATUS 0 fs a0 s0).1 (statusName k)
      = some (advance E (NB_TIRAGES * k) s0) := by
    intro k hk
    have := savePhase_files E NB_STATUS 0 fs a0 s0 k (by omega) (by omega) (by decide)
    simpa using this
  have htir : ∀ k t, k < NB_STATUS → t < NB_TIRAGES →
      (savePhase E NB_STATUS 0 fs a0 s0).2.1 k t = draw E s0 (NB_TIRAGES * k + t) := by
    intro k t hk ht
    have := savePhase_tirages E NB_STATUS 0 fs a0 s0 k t (by omega) (by omega) ht
    simpa using this
  refine ⟨fun k t => htir k t k.2 t.2, ?_, ?_⟩
  · intro k t s
    rw [htir k t k.2 t.2]
    simp only [restoreStatus, hfiles k k.2]
    exact draw_advance E _ _ s0
  · unfold SaveEtRestoreStatus
    simp only []
    rw [restorePhase_ok E _ _ (fun k => advance E (NB_TIRAGES * k) s0) NB_STATUS 0 _
      (fun k _ hk => ⟨hfiles k (by omega), fun t ht => by
        rw [htir k t (by omega) ht, draw_advance]⟩)]
    simp only [NB_STATUS, NB_TIRAGES, ← advance_add]

/-! ## Lemmas on `saveStatusGrandNmbre` -/

theorem ladderName_inj : ∀ i < 10, ∀ j < 10, ladderName i = ladderName j → i = j := by
  decide

theorem ladderLoop_state {σ : Type} (E : MTwistEngine σ) (S n : Nat) :
    ∀ (sv : Nat) (fs : Files σ) (s : σ),
      (ladderLoop E S n sv fs s).2 = advance E (n * S) s := by
  induction n with
  | zero => intro sv fs s; simp [ladderLoop, advance]
  | succ n ih =>
    intro sv fs s
    simp only [ladderLoop]
    rw [ih, ← advance_add]
    congr 1
    ring

theorem ladderLoop_files_frame {σ : Type} (E : MTwistEngine σ) (S n : Nat) :
    ∀ (sv : Nat) (fs : Files σ) (s : σ) (name : String),
      (∀ k, sv ≤ k → k < sv + n → name ≠ ladderName k) →
      (ladderLoop E S n sv fs s).1 name = fs name := by
  induction n with
  | zero => intro sv fs s name _; rfl
  | succ n ih =>
    intro sv fs s name h
    simp only [ladderLoop]
    rw [ih _ _ _ name (fun k h1 h2 => h k (by omega) (by omega))]
    have hne : name ≠ ladderName sv := h sv (by omega) (by omega)
    simp [saveStatus, hne]

theorem ladderLoop_files {σ : Type} (E : MTwistEngine σ) (S n : Nat) :
    ∀ (sv : Nat) (fs : Files σ) (s : σ) (k : Nat),
      sv ≤ k → k < sv + n → sv + n ≤ 10 →
      (ladderLoop E S n sv fs s).1 (ladderName k)
        = some (advance E ((k - sv) * S) s) := by
  induction n with
  | zero => intro sv fs s k h1 h2; omega
  | succ n ih =>
    intro sv fs s k h1 h2 h3
    simp only [ladderLoop]
    by_cases hk : k = sv
    · subst hk
      rw [ladderLoop_files_frame]
      · simp [saveStatus, advance]
      · intro k2 h4 h5 heq
        have := ladderName_inj k (by omega) k2 (by omega) heq
        omega
    · rw [ih _ _ _ k (by omega) (by omega) (by omega), ← advance_add]
      congr 2
      have e : k - sv = (k - (sv + 1)) + 1 := by omega
      rw [e]
      ring

theorem ladder_checkpoint {σ : Type} (E : MTwistEngine σ) (fs : Files σ) (s0 : σ) (k : Nat)
    (hk : k < NB_STATUS) :
    (saveStatusGrandNmbre E fs s0).1 (ladderName k) = some (advance E (k * skipDistance) s0) := by
  have h10 : NB_STATUS = 10 := rfl
  have := ladderLoop_files E skipDistance NB_STATUS 0 fs s0 k (by omega) (by omega) (by omega)
  rw [Nat.sub_zero] at this
  exact this

theorem ladder_draw {σ : Type} (E : MTwistEngine σ) (fs : Files σ) (s0 s : σ) (k a : Nat)
    (hk : k < NB_STATUS) :
    draw E (restoreStatus (saveStatusGrandNmbre E fs s0).1 (ladderName k) s) a
      = draw E s0 (ladderPosition k a) := by
  simp only [restoreStatus, ladder_checkpoint E fs s0 k hk]
  exact draw_advance E _ _ s0

/-! ## Claims on `saveStatusGrandNmbre` -/

/-- C4: for every initial engine state `s0`, the state `saveStatusGrandNmbre` stores
under ladder index `k` (file `status_sm_2-k`), `k` in `0..9`, is the state reached from
`s0` after `k * 2,000,000,000` draws; the state stored under index `k + 1` is the one
stored under index `k` advanced by `2,000,000,000` draws; and the engine is left
`10 * 2,000,000,000` draws after `s0`. -/
theorem saveStatusGrandNmbre_ladder {σ : Type} (E : MTwistEngine σ) (fs : Files σ) (s0 : σ) :
    (∀ k : Fin NB_STATUS, (saveStatusGrandNmbre E fs s0).1 (ladderName k)
        = some (advance E (k * 2000000000) s0))
      ∧ (∀ k : Fin 9, (saveStatusGrandNmbre E fs s0).1 (ladderName (k + 1))
          = Option.map (advance E 2000000000)
              ((saveStatusGrandNmbre E fs s0).1 (ladderName k)))
      ∧ (saveStatusGrandNmbre E fs s0).2 = advance E (10 * 2000000000) s0 := by
  have h10 : NB_STATUS = 10 := rfl
  refine ⟨fun k => ladder_checkpoint E fs s0 k k.2, ?_, ?_⟩
  · intro k
    have hk := k.2
    rw [ladder_checkpoint E fs s0 (k + 1) (by omega), ladder_checkpoint E fs s0 k (by omega)]
    have e : (↑k + 1) * skipDistance = ↑k * skipDistance + 2000000000 := by
      simp only [skipDistance]
      ring
    rw [Option.map_some', ← advance_add, e]
  · exact ladderLoop_state E skipDistance NB_STATUS 0 fs s0

/-- C5: on the ladder built by `saveStatusGrandNmbre`, draw `a` after restoring
checkpoint `i` is draw `i * S + a` of the sequence the ladder was built from
(`S = 2,000,000,000`), and for distinct indices `i`, `j` in `0..9` and offsets
`a, b < S` the positions `i * S + a` and `j * S + b` differ. -/
theorem ladder_substreams_disjoint {σ : Type} (E : MTwistEngine σ) (fs : Files σ)
    (s0 s : σ) (i j : Fin NB_STATUS) (a b : Nat) (hij : i ≠ j)
    (ha : a < 2000000000) (hb : b < 2000000000) :
    draw E (restoreStatus (saveStatusGrandNmbre E fs s0).1 (ladderName i) s) a
        = draw E s0 (ladderPosition i a)
      ∧ draw E (restoreStatus (saveStatusGrandNmbre E fs s0).1 (ladderName j) s) b
        = draw E s0 (ladderPosition j b)
      ∧ ladderPosition i a = i * 2000000000 + a
      ∧ ladderPosition j b = j * 2000000000 + b
      ∧ ladderPosition i a ≠ ladderPosition j b := by
  refine ⟨ladder_draw E fs s0 s i a i.2, ladder_draw E fs s0 s j b j.2, rfl, rfl, ?_⟩
  have hne : (i : Nat) ≠ (j : Nat) := fun h => hij (Fin.ext h)
  simp only [ladderPosition, skipDistance]
  omega

/-- Witness of C5: checkpoints 0 and 1, offsets 5 and 7, on the engine whose draws are
all `1/2`. -/
theorem ladder_substreams_disjoint_witness :
    draw halfEngine (restoreStatus (saveStatusGrandNmbre halfEngine noFiles 0).1
          (ladderName (0 : Fin NB_STATUS)) 0) 5
        = draw halfEngine 0 (ladderPosition (0 : Fin NB_STATUS) 5)
      ∧ draw halfEngine (restoreStatus (saveStatusGrandNmbre halfEngine noFiles 0).1
          (ladderName (1 : Fin NB_STATUS)) 0) 7
        = draw halfEngine 0 (ladderPosition (1 : Fin NB_STATUS) 7)
      ∧ ladderPosition (0 : Fin NB_STATUS) 5 = (0 : Fin NB_STATUS) * 2000000000 + 5
      ∧ ladderPosition (1 : Fin NB_STATUS) 7 = (1 : Fin NB_STATUS) * 2000000000 + 7
      ∧ ladderPosition (0 : Fin NB_STATUS) 5 ≠ ladderPosition (1 : Fin NB_STATUS) 7 :=
  ladder_substreams_disjoint halfEngine noFiles 0 0 0 1 5 7 (by decide) (by decide) (by decide)

/-! ## Lemmas on the estimation modes -/

theorem narrowToInt_id (n : Int) (h1 : -(2 ^ 31) ≤ n) (h2 : n ≤ 2 ^ 31 - 1) :
    narrowToInt n = n := by
  unfold narrowToInt
  omega

theorem calculerVolumeSphereParallel_eq {σ : Type} (E : MTwistEngine σ) (R : DoubleArith)
    (fs : Files σ) (s : σ) (nbPoints : Int) (fileName : String) (n : Nat)
    (hn : n ≤ 2 ^ 31 - 1) (h : narrowToInt nbPoints = (n : Int)) :
    calculerVolumeSphereParallel E R fs s nbPoints fileName
      = (some (R.rnd (8 * (hits E R (restoreStatus fs fileName s) n : ℚ) / (n : ℚ))),
          advance E (3 * n) (restoreStatus fs fileName s)) := by
  unfold calculerVolumeSphereParallel
  simp only [h]
  rw [calculerVolumeSphere_eq E R _ n hn]

theorem narrowToInt_mainNbPoints : narrowToInt mainNbPoints = ((1000000000 : Nat) : Int) := by
  simp [narrowToInt, mainNbPoints]

theorem advance_halfEngine (n : Nat) : ∀ s : Nat, advance halfEngine n s = s + n := by
  induction n with
  | zero => intro s; rfl
  | succ n ih =>
    intro s
    simp only [advance]
    rw [ih]
    simp only [halfEngine]
    omega

theorem inSphere_half : inSphere exactArith (1 / 2) (1 / 2) (1 / 2) = true := by
  norm_num [inSphere, sumSq, coord, fadd, fmul, fsub, exactArith]

theorem hits_halfEngine_one (s : Nat) : hits halfEngine exactArith s 1 = 1 := by
  have h : hitAt halfEngine exactArith s 0 = true := inSphere_half
  simp [hits, List.range_succ, h]

/-! ## Claims on the parallel worker and the skip distance -/

/-- C6, as the code behaves: a run of case 5 of `main` (budget `1,000,000,000`) leaves
the engine `3,000,000,000` draws after the restored state, which is more than the
`2,000,000,000` draws between consecutive ladder checkpoints; draw `2,000,000,000` of
the worker restored from checkpoint 0, which that worker consumes, is draw 0 of the
worker restored from checkpoint 1. -/
theorem mainCase5_draws_exceed_skipDistance {σ : Type} (E : MTwistEngine σ)
    (R : DoubleArith) (fs : Files σ) (s0 s : σ) (fileName : String) :
    (mainCase5 E R fs s fileName).2 = advance E 3000000000 (restoreStatus fs fileName s)
      ∧ skipDistance < 3000000000
      ∧ ladderPosition 0 2000000000 = ladderPosition 1 0
      ∧ draw E (restoreStatus (saveStatusGrandNmbre E fs s0).1 (ladderName 0) s) 2000000000
        = draw E (restoreStatus (saveStatusGrandNmbre E fs s0).1 (ladderName 1) s) 0 := by
  have hpos : ladderPosition 0 2000000000 = ladderPosition 1 0 := by
    simp [ladderPosition, skipDistance]
  refine ⟨?_, by simp [skipDistance], hpos, ?_⟩
  · have h := calculerVolumeSphereParallel_eq E R fs s mainNbPoints fileName 1000000000
      (by norm_num) narrowToInt_mainNbPoints
    have e3 : 3 * 1000000000 = 3000000000 := by norm_num
    rw [e3] at h
    have h2 : mainCase5 E R fs s fileName
        = calculerVolumeSphereParallel E R fs s mainNbPoints fileName := rfl
    rw [h2, h]
  · rw [ladder_draw E fs s0 s 0 _ (by decide), ladder_draw E fs s0 s 1 _ (by decide), hpos]

/-- C7, as the code behaves: for every checkpoint name whose restore fails,
`calculerVolumeSphereParallel` raises no error; it prints the estimate that
`calculerVolumeSphere` computes from the state the engine had before the call. -/
theorem calculerVolumeSphereParallel_failed_restore {σ : Type} (E : MTwistEngine σ)
    (R : DoubleArith) (fs : Files σ) (s : σ) (nbPoints : Int) (fileName : String)
    (hfail : fs fileName = none) :
    calculerVolumeSphereParallel E R fs s nbPoints fileName
      = (some (calculerVolumeSphere E R s (narrowToInt nbPoints)).1,
          (calculerVolumeSphere E R s (narrowToInt nbPoints)).2) := by
  have hr : restoreStatus fs fileName s = s := by simp [restoreStatus, hfail]
  unfold calculerVolumeSphereParallel
  simp only [hr]

/-- Witness of the amended C7: no checkpoint at all, budget of one point. -/
theorem calculerVolumeSphereParallel_failed_restore_witness :
    noFiles "./status/status_sm_2-0" = none
      ∧ calculerVolumeSphereParallel halfEngine exactArith noFiles 0 1 "./status/status_sm_2-0"
        = (some (calculerVolumeSphere halfEngine exactArith 0 (narrowToInt 1)).1,
            (calculerVolumeSphere halfEngine exactArith 0 (narrowToInt 1)).2) :=
  ⟨rfl, calculerVolumeSphereParallel_failed_restore halfEngine exactArith noFiles 0 1
    "./status/status_sm_2-0" rfl⟩

/-- Counterexample to C7 as stated: with no checkpoint stored the restore fails, yet
the worker prints the estimate 8 computed from the prior state 0 and leaves the engine
three draws further. -/
theorem calculerVolumeSphereParallel_reports_after_failed_restore :
    noFiles "./status/status_sm_2-0" = none
      ∧ calculerVolumeSphereParallel halfEngine exactArith noFiles 0 1 "./status/status_sm_2-0"
        = (some 8, 3) := by
  refine ⟨rfl, ?_⟩
  have h1 : narrowToInt 1 = ((1 : Nat) : Int) := by simp [narrowToInt]
  rw [calculerVolumeSphereParallel_eq halfEngine exactArith noFiles 0 1 _ 1 (by norm_num) h1]
  have hr : restoreStatus noFiles "./status/status_sm_2-0" 0 = 0 := rfl
  rw [hr, hits_halfEngine_one, advance_halfEngine]
  norm_num [exactArith]

/-! ## Lemmas on `calculerVolumeSphereSequentiel` -/

theorem replicationLoop_spec {σ : Type} (E : MTwistEngine σ) (R : DoubleArith) (s0 : σ)
    (nbPoints : Int) (n : Nat) (hn : n ≤ 2 ^ 31 - 1) (h : narrowToInt nbPoints = (n : Int))
    (k : Nat) :
    ∀ (r0 : Nat) (somme : ℚ),
      replicationLoop E R nbPoints k (advance E (3 * n * r0) s0) somme
        = ((List.range' r0 k).foldl
              (fun acc r => fadd R acc (replicationEstimate E R s0 n r)) somme,
            advance E (3 * n * (r0 + k)) s0) := by
  induction k with
  | zero => intro r0 somme; rfl
  | succ k ih =>
    intro r0 somme
    simp only [replicationLoop, h]
    rw [calculerVolumeSphere_eq E R _ n hn]
    simp only []
    rw [← advance_add]
    have e1 : 3 * n * r0 + 3 * n = 3 * n * (r0 + 1) := by ring
    rw [e1, ih (r0 + 1)]
    have e2 : r0 + 1 + k = r0 + (k + 1) := by omega
    rw [e2, List.range'_succ, List.foldl_cons]
    rfl

theorem foldl_estimates_bounds (R : DoubleArith) (est : Nat → ℚ)
    (hest : ∀ r, 0 ≤ est r ∧ est r ≤ 8) (l : List Nat) :
    ∀ (m : Nat) (somme : ℚ), 0 ≤ somme → somme ≤ 8 * (m : ℚ) → m + l.length ≤ 1000 →
      0 ≤ l.foldl (fun acc r => fadd R acc (est r)) somme
        ∧ l.foldl (fun acc r => fadd R acc (est r)) somme ≤ 8 * ((m + l.length : Nat) : ℚ) := by
  induction l with
  | nil => intro m somme h0 h8 _; simpa using ⟨h0, h8⟩
  | cons r l ih =>
    intro m somme h0 h8 hlen
    simp only [List.length_cons] at hlen
    simp only [List.foldl_cons, List.length_cons]
    have hb : 0 ≤ somme + est r ∧ somme + est r ≤ ((8 * (m + 1) : Nat) : ℚ) := by
      have := hest r
      push_cast
      constructor <;> linarith [this.1, this.2]
    have hr := rnd_bounds R (somme + est r) (8 * (m + 1)) (by omega) hb.1 hb.2
    have := ih (m + 1) (fadd R somme (est r)) hr.1 (by simpa [fadd] using hr.2) (by omega)
    have e : m + 1 + l.length = m + (l.length + 1) := by omega
    rw [e] at this
    exact this

/-! ## Claim on `calculerVolumeSphereSequentiel` -/

/-- C8: for every engine state `s0` and every `long` budget `nbPoints` with
`1 ≤ nbPoints ≤ 2^31 - 1`, replication `r` (`r` in `0..9`) of
`calculerVolumeSphereSequentiel` is `calculerVolumeSphere` run from the state reached
after `3 * nbPoints * r` draws from `s0` (the state the previous replication left), the
printed value is the sum of the ten results, added in order, divided by 10, the engine
is left `30 * nbPoints` draws after `s0`, and the printed value lies in `[0, 8]`. -/
theorem calculerVolumeSphereSequentiel_spec {σ : Type} (E : MTwistEngine σ)
    (R : DoubleArith) (s0 : σ) (nbPoints : Int) (h1 : 1 ≤ nbPoints)
    (h2 : nbPoints ≤ 2 ^ 31 - 1) :
    (∀ r : Fin 10, replicationEstimate E R s0 nbPoints.toNat r
        = (calculerVolumeSphere E R (advance E (3 * nbPoints.toNat * r) s0)
            (narrowToInt nbPoints)).1)
      ∧ (calculerVolumeSphereSequentiel E R s0 nbPoints).1
        = meanOfReplications E R s0 nbPoints.toNat
      ∧ (calculerVolumeSphereSequentiel E R s0 nbPoints).2
        = advance E (30 * nbPoints.toNat) s0
      ∧ 0 ≤ (calculerVolumeSphereSequentiel E R s0 nbPoints).1
      ∧ (calculerVolumeSphereSequentiel E R s0 nbPoints).1 ≤ 8 := by
  obtain ⟨n, rfl⟩ := Int.eq_ofNat_of_zero_le (by omega : 0 ≤ nbPoints)
  have hn : n ≤ 2 ^ 31 - 1 := by omega
  have h1n : 1 ≤ n := by omega
  have hnar : narrowToInt (n : Int) = (n : Int) := narrowToInt_id _ (by omega) h2
  have hloop := replicationLoop_spec E R s0 (n : Int) n hn hnar 10 0 0
  have e0 : 3 * n * 0 = 0 := by ring
  have e10 : 3 * n * (0 + 10) = 30 * n := by ring
  rw [e0, e10] at hloop
  have hadv : advance E 0 s0 = s0 := rfl
  rw [hadv, ← List.range_eq_range'] at hloop
  have hseq : calculerVolumeSphereSequentiel E R s0 (n : Int)
      = (meanOfReplications E R s0 n, advance E (30 * n) s0) := by
    unfold calculerVolumeSphereSequentiel meanOfReplications
    simp only [hloop]
  have hest : ∀ r, 0 ≤ replicationEstimate E R s0 n r ∧ replicationEstimate E R s0 n r ≤ 8 :=
    fun r => estimate_bounds E R _ n h1n
  have hsum := foldl_estimates_bounds R (replicationEstimate E R s0 n) hest (List.range 10)
    0 0 (le_refl _) (by norm_num) (by simp)
  have hmean : 0 ≤ meanOfReplications E R s0 n ∧ meanOfReplications E R s0 n ≤ 8 := by
    unfold meanOfReplications fdiv
    have hb := rnd_bounds R
      ((List.range 10).foldl (fun acc r => fadd R acc (replicationEstimate E R s0 n r)) 0 / 10)
      8 (by norm_num) (by have := hsum.1; positivity)
      (by
        have := hsum.2
        simp only [List.length_range] at this
        push_cast at this ⊢
        linarith)
    simpa using hb
  simp only [Int.toNat_ofNat, hnar, hseq]
  refine ⟨fun r => ?_, trivial, trivial, hmean.1, hmean.2⟩
  rw [calculerVolumeSphere_eq E R _ n hn]
  rfl

/-- Witness of C8 on the engine whose draws are all `1/2`, with a budget of 5 points. -/
theorem calculerVolumeSphereSequentiel_spec_witness :
    (∀ r : Fin 10, replicationEstimate halfEngine exactArith 0 (5 : Int).toNat r
        = (calculerVolumeSphere halfEngine exactArith
            (advance halfEngine (3 * (5 : Int).toNat * r) 0) (narrowToInt 5)).1)
      ∧ (calculerVolumeSphereSequentiel halfEngine exactArith 0 5).1
        = meanOfReplications halfEngine exactArith 0 (5 : Int).toNat
      ∧ (calculerVolumeSphereSequentiel halfEngine exactArith 0 5).2
        = advance halfEngine (30 * (5 : Int).toNat) 0
      ∧ 0 ≤ (calculerVolumeSphereSequentiel halfEngine exactArith 0 5).1
      ∧ (calculerVolumeSphereSequentiel halfEngine exactArith 0 5).1 ≤ 8 :=
  calculerVolumeSphereSequentiel_spec halfEngine exactArith 0 5 (by decide) (by decide)

/-! ## Lemmas on `calculerVolumeSphereParallelV2` -/

theorem loopV2_spec {σ : Type} (E : MTwistEngine σ) (R : DoubleArith) (k : Nat) :
    ∀ (s : σ) (m : Nat), m + k ≤ 2 ^ 53 →
      loopV2 E R k s (m : ℚ) = (advance E (3 * k) s, ((m + hits E R s k : Nat) : ℚ)) := by
  induction k with
  | zero => intro s m _; simp [loopV2, advance, hits]
  | succ k ih =>
    intro s m hb
    have h3 : 3 * (k + 1) = 3 + 3 * k := by ring
    have hadv : advance E 3 s = (E.flat (E.flat (E.flat s).2).2).2 := rfl
    have hhit : hitAt E R s 0
        = inSphere R (E.flat s).1 (E.flat (E.flat s).2).1 (E.flat (E.flat (E.flat s).2).2).1 := rfl
    rw [h3, advance_add, hits_succ, hhit, hadv]
    simp only [loopV2]
    by_cases hin : inSphere R (E.flat s).1 (E.flat (E.flat s).2).1
        (E.flat (E.flat (E.flat s).2).2).1 = true
    · simp only [hin, if_true]
      have hm : fadd R (m : ℚ) 1 = ((m + 1 : Nat) : ℚ) := by
        have := rnd_nat R (m + 1) (by omega)
        simpa [fadd] using this
      rw [hm, ih _ _ (by omega)]
      congr 2
      omega
    · rw [Bool.not_eq_true] at hin
      simp only [hin, Bool.false_eq_true, if_false]
      rw [ih _ _ (by omega)]
      simp

theorem calculerVolumeSphereParallelV2_eq {σ : Type} (E : MTwistEngine σ) (R : DoubleArith)
    (fs : Files σ) (s : σ) (m n : Nat) (fileName : String) (hm : m ≤ 2 ^ 31)
    (hn : n ≤ 2 ^ 31 - 1) :
    calculerVolumeSphereParallelV2 E R fs s (m : ℚ) (n : Int) fileName
      = (R.rnd (8 * ((m + hits E R (restoreStatus fs fileName s) n : Nat) : ℚ) / (n : ℚ)),
          advance E (3 * n) (restoreStatus fs fileName s)) := by
  have hh : hits E R (restoreStatus fs fileName s) n ≤ n := hits_le E R _ n
  have hn2 : n ≤ 2147483647 := by simpa using hn
  have hm2 : m ≤ 2147483648 := by simpa using hm
  unfold calculerVolumeSphereParallelV2
  simp only [Int.toNat_ofNat]
  rw [loopV2_spec E R n _ m (by omega)]
  simp only [fdiv, fmul, Int.cast_natCast]
  rw [rnd_nat R n (by omega)]
  have e : (8 : ℚ) * ((m + hits E R (restoreStatus fs fileName s) n : Nat) : ℚ)
      = ((8 * (m + hits E R (restoreStatus fs fileName s) n) : Nat) : ℚ) := by push_cast; ring
  rw [e, rnd_nat R _ (by omega)]

theorem calculerVolumeSphereParallelV2_zero {σ : Type} (E : MTwistEngine σ)
    (R : DoubleArith) (fs : Files σ) (s : σ) (n : Nat) (fileName : String)
    (hn : n ≤ 2 ^ 31 - 1) :
    calculerVolumeSphereParallelV2 E R fs s 0 (n : Int) fileName
      = calculerVolumeSphere E R (restoreStatus fs fileName s) (n : Int) := by
  have h := calculerVolumeSphereParallelV2_eq E R fs s 0 n fileName (by norm_num) hn
  rw [Nat.zero_add, Nat.cast_zero] at h
  rw [h, calculerVolumeSphere_eq E R _ n hn]

/-! ## Claims on `calculerVolumeSphereParallelV2` and on the narrowed budget -/

/-- C9, as the code behaves: the local `double pi` of `calculerVolumeSphereParallelV2`
has no initialiser, so the accumulator does not start from zero; when it holds 1 at
loop entry, a run in index order with `nbPoints = 1` prints the value
`calculerVolumeSphere` returns for the same restored state and budget plus 8, hence a
different value, and one above 8 when the point is a hit (as on the engine whose draws
are all `1/2`, where 16 is printed). -/
theorem calculerVolumeSphereParallelV2_uninitialised {σ : Type} (E : MTwistEngine σ)
    (R : DoubleArith) (fs : Files σ) (s : σ) (fileName : String) :
    (calculerVolumeSphereParallelV2 E R fs s 1 1 fileName).1
        = (calculerVolumeSphere E R (restoreStatus fs fileName s) 1).1 + 8
      ∧ (calculerVolumeSphereParallelV2 E R fs s 1 1 fileName).1
        ≠ (calculerVolumeSphere E R (restoreStatus fs fileName s) 1).1
      ∧ (calculerVolumeSphereParallelV2 halfEngine exactArith noFiles 0 1 1 fileName).1 = 16
      ∧ (calculerVolumeSphere halfEngine exactArith (restoreStatus noFiles fileName 0) 1).1
        = 8 := by
  have key : ∀ (τ : Type) (F : MTwistEngine τ) (Q : DoubleArith) (gs : Files τ) (x : τ),
      (calculerVolumeSphereParallelV2 F Q gs x 1 1 fileName).1
        = Q.rnd (8 * ((1 + hits F Q (restoreStatus gs fileName x) 1 : Nat) : ℚ)) ∧
      (calculerVolumeSphere F Q (restoreStatus gs fileName x) 1).1
        = Q.rnd (8 * (hits F Q (restoreStatus gs fileName x) 1 : ℚ)) := by
    intro τ F Q gs x
    have hv := calculerVolumeSphereParallelV2_eq F Q gs x 1 1 fileName (by norm_num)
      (by norm_num)
    have hc := calculerVolumeSphere_eq F Q (restoreStatus gs fileName x) 1 (by norm_num)
    simp only [Nat.cast_one, div_one] at hv hc
    rw [hv, hc]
    exact ⟨rfl, rfl⟩
  have hval : ∀ (Q : DoubleArith) (h : Nat), h ≤ 1 →
      Q.rnd (8 * ((1 + h : Nat) : ℚ)) = Q.rnd (8 * (h : ℚ)) + 8 := by
    intro Q h hh
    have a1 := rnd_nat Q (8 * (1 + h)) (by omega)
    have a2 := rnd_nat Q (8 * h) (by omega)
    push_cast at a1 a2 ⊢
    rw [a1, a2]
    ring
  have hgen := key σ E R fs s
  have hh : hits E R (restoreStatus fs fileName s) 1 ≤ 1 := hits_le E R _ 1
  have hhalf := key Nat halfEngine exactArith noFiles 0
  have hr : restoreStatus noFiles fileName 0 = 0 := rfl
  rw [hr, hits_halfEngine_one] at hhalf
  refine ⟨?_, ?_, ?_, ?_⟩
  · rw [hgen.1, hgen.2]
    exact hval R _ hh
  · rw [hgen.1, hgen.2, hval R _ hh]
    intro hne
    linarith
  · rw [hhalf.1]
    norm_num [exactArith]
  · rw [hr, hhalf.2]
    norm_num [exactArith]

/-- C10, as the code behaves: the `long` budget `2^32 + 1` is narrowed to the `int` 1,
so `calculerVolumeSphereParallel` runs one iteration (three draws) and
`calculerVolumeSphereSequentiel` ten (thirty draws), not `2^32 + 1` per estimate; on
the engine whose state counts the draws made, the sequential mode ends at 30 and not
at `30 * (2^32 + 1)`. The budget `2^32` is narrowed to 0: no draw is made and the
hit count is divided by zero. -/
theorem narrowed_budget_runs_short {σ : Type} (E : MTwistEngine σ) (R : DoubleArith)
    (fs : Files σ) (s : σ) (fileName : String) :
    narrowToInt 4294967297 = 1
      ∧ calculerVolumeSphereParallel E R fs s 4294967297 fileName
        = (some (calculerVolumeSphere E R (restoreStatus fs fileName s) 1).1,
            advance E 3 (restoreStatus fs fileName s))
      ∧ (calculerVolumeSphereSequentiel E R s 4294967297).2 = advance E 30 s
      ∧ (calculerVolumeSphereSequentiel halfEngine exactArith 0 4294967297).2 = 30
      ∧ advance halfEngine (30 * 4294967297) 0 = 30 * 4294967297
      ∧ narrowToInt 4294967296 = 0
      ∧ (calculerVolumeSphereParallel E R fs s 4294967296 fileName).2
        = restoreStatus fs fileName s := by
  have h1 : narrowToInt 4294967297 = ((1 : Nat) : Int) := by simp [narrowToInt]
  have h0 : narrowToInt 4294967296 = 0 := by simp [narrowToInt]
  have hseq : ∀ (τ : Type) (F : MTwistEngine τ) (Q : DoubleArith) (x : τ),
      (calculerVolumeSphereSequentiel F Q x 4294967297).2 = advance F 30 x := by
    intro τ F Q x
    have hloop := replicationLoop_spec F Q x 4294967297 1 (by norm_num) h1 10 0 0
    have hadv : advance F (3 * 1 * 0) x = x := rfl
    rw [hadv] at hloop
    unfold calculerVolumeSphereSequentiel
    simp only [hloop]
  refine ⟨by simpa using h1, ?_, hseq σ E R s, ?_, ?_, h0, ?_⟩
  · unfold calculerVolumeSphereParallel
    simp only [h1, Nat.cast_one]
    have hc := calculerVolumeSphere_eq E R (restoreStatus fs fileName s) 1 (by norm_num)
    simp only [Nat.cast_one] at hc
    rw [hc]
  · rw [hseq Nat halfEngine exactArith 0, advance_halfEngine]
  · rw [advance_halfEngine, Nat.zero_add]
  · unfold calculerVolumeSphereParallel
    simp only [h0]
    rfl

end TP5
